import Mathlib

set_option maxHeartbeats 1000000

namespace PgDbManager

/-!
Shallow embedding of the storage layer of the postgres-database-manager
repository (class DatabaseStorage in the server source, plus the route
handlers that surface its results over HTTP).

Application state that lives in the bookkeeping database (connections,
settings, activity logs) is modelled as lists of rows, in table order.
Target-database tables reached through raw SQL are modelled as lists of
association lists from column names to values of an arbitrary type with
decidable equality.  Timestamps (new Date()) are natural numbers supplied
by the caller.  Each drizzle UPDATE touches every row matched by its WHERE
clause and RETURNING yields the updated rows in table order; the source
destructures the first returned row ([x] = ...), modelled with head?.
-/

/-- Row of the db_connections table (the fields activation touches). -/
structure DbConnection where
  id : Nat
  name : String
  isActive : Bool
  updatedAt : Nat
deriving DecidableEq, Repr

/-- Embedding of DatabaseStorage.activateConnection: first
UPDATE db_connections SET is_active = false WHERE is_active = true,
then UPDATE ... SET is_active = true, updated_at = now WHERE id = id
RETURNING *; the method returns the first returned row of the second
update (undefined when the id matches nothing), paired here with the new
registry state. -/
def activateConnection (st : List DbConnection) (id now : Nat) :
    Option DbConnection × List DbConnection :=
  let st1 := st.map (fun c => if c.isActive then { c with isActive := false } else c)
  let st2 := st1.map (fun c => if c.id = id then { c with isActive := true, updatedAt := now } else c)
  ((st2.filter (fun c => decide (c.id = id))).head?, st2)

/-- Embedding of DatabaseStorage.getActiveConnection: SELECT the rows with
is_active = true and destructure the first one. -/
def getActiveConnection (st : List DbConnection) : Option DbConnection :=
  (st.filter (fun c => c.isActive)).head?

/-- HTTP status returned by the POST /api/connections/:id/activate route:
200 with the connection when activateConnection returned one, else 404. -/
def activateStatus : Option DbConnection → Nat
  | some _ => 200
  | none => 404

/-- Pagination descriptor built by DatabaseStorage.fetchTableData. -/
structure Pagination where
  total : Nat
  page : Nat
  pageSize : Nat
  totalPages : Nat
deriving DecidableEq, Repr

/-- Result shape of DatabaseStorage.fetchTableData. -/
structure FetchResult (ρ : Type) where
  data : List ρ
  pagination : Pagination
deriving Repr

/-- Embedding of DatabaseStorage.fetchTableData over the current contents
of the target table: offset = (page - 1) * pageSize, a COUNT(*) giving
total, then SELECT * FROM t LIMIT pageSize OFFSET offset.  The source
computes totalPages as Math.ceil(total / pageSize); over the naturals with
pageSize positive this is (total + pageSize - 1) / pageSize, and the
agreement with the real ceiling is proved below (ceil_cast_div). -/
def fetchTableData {ρ : Type} (rows : List ρ) (page pageSize : Nat) : FetchResult ρ :=
  let offset := (page - 1) * pageSize
  let total := rows.length
  { data := (rows.drop offset).take pageSize
    pagination :=
      { total := total
        page := page
        pageSize := pageSize
        totalPages := (total + pageSize - 1) / pageSize } }

variable {α : Type} [DecidableEq α]

/-- A row of a target-database table: an association list from column
names to values, in column order. -/
abbrev Row (α : Type) := List (String × α)

/-- Value of a column in a row (none when the column is absent). -/
def rowGet (r : Row α) (c : String) : Option α :=
  (r.find? (fun p => decide (p.1 = c))).map Prod.snd

/-- Assign a value to a column of a row, in place when the column exists,
appended at the end otherwise. -/
def setAssoc : Row α → String → α → Row α
  | [], c, v => [(c, v)]
  | (c', v') :: r, c, v =>
      if c' = c then (c, v) :: r else (c', v') :: setAssoc r c v

/-- Apply a list of SET assignments to a row, left to right. -/
def applySets (r : Row α) (sets : List (String × α)) : Row α :=
  sets.foldl (fun acc p => setAssoc acc p.1 p.2) r

/-- A parameterized SQL statement as handed to the driver: the SQL text
with interpolated identifiers, and the bound parameter values. -/
structure SqlQuery (α : Type) where
  text : String
  params : List α
deriving Repr

/-- Placeholder list built by columns.map((_, index) => dollar(index+1))
joined with a comma: the element is ignored, only the index is used, so it
is the map over List.range of the column count. -/
def placeholders (n : Nat) : String :=
  String.intercalate ", " ((List.range n).map (fun i => "$" ++ toString (i + 1)))

/-- Embedding of the statement built by DatabaseStorage.insertRow:
columns = Object.keys(data), values = Object.values(data), text
INSERT INTO t (cols) VALUES (placeholders) RETURNING *, with only the
values bound as parameters.  The record is the JS object as an entry
list in insertion order. -/
def insertRowQuery (tableName : String) (data : List (String × α)) : SqlQuery α :=
  let columns := data.map Prod.fst
  let values := data.map Prod.snd
  { text := "INSERT INTO " ++ tableName ++ " (" ++ String.intercalate ", " columns ++
      ") VALUES (" ++ placeholders columns.length ++ ") RETURNING *"
    params := values }

/-- Entries of the record whose key differs from the primary-key column:
for a JS object (unique keys, insertion order) this is exactly
Object.keys(data).filter(col => col !== primaryKey) paired with
columns.map(col => data[col]). -/
def colsVals (data : List (String × α)) (pk : String) : List (String × α) :=
  data.filter (fun p => decide (¬ p.1 = pk))

/-- Embedding of the statement built by DatabaseStorage.updateRow:
UPDATE t SET col1 = $1, ... WHERE pk = $(n+1) RETURNING *, the primary-key
column excluded from the SET list and the values followed by the
primary-key value as parameters. -/
def updateRowQuery (tableName pk : String) (pkValue : α) (data : List (String × α)) :
    SqlQuery α :=
  let cv := colsVals data pk
  let columns := cv.map Prod.fst
  let values := cv.map Prod.snd
  let setClause := String.intercalate ", "
    (columns.mapIdx (fun i c => c ++ " = $" ++ toString (i + 1)))
  { text := "UPDATE " ++ tableName ++ " SET " ++ setClause ++ " WHERE " ++ pk ++
      " = $" ++ toString (columns.length + 1) ++ " RETURNING *"
    params := values ++ [pkValue] }

/-- Embedding of the statement built by DatabaseStorage.deleteRow:
DELETE FROM t WHERE pk = $1 RETURNING pk. -/
def deleteRowQuery (tableName pk : String) (pkValue : α) : SqlQuery α :=
  { text := "DELETE FROM " ++ tableName ++ " WHERE " ++ pk ++ " = $1 RETURNING " ++ pk
    params := [pkValue] }

/-- Relational model of the target database running
UPDATE t SET assignments WHERE pk = bound RETURNING *: every row whose pk
column equals the bound value receives the assignments, the updated rows
are returned together with the new table.  PostgreSQL rejects an UPDATE
whose SET list is empty as a syntax error, which the model reflects with
Except.error. -/
def runUpdate (rows : List (Row α)) (pk : String) (pkValue : α)
    (sets : List (String × α)) :
    Except String (List (Row α) × List (Row α)) :=
  if sets.isEmpty then Except.error "syntax error at or near WHERE" else
  Except.ok
    ((rows.filter (fun r => decide (rowGet r pk = some pkValue))).map
        (fun r => applySets r sets),
      rows.map (fun r =>
        if rowGet r pk = some pkValue then applySets r sets else r))

/-- Embedding of DatabaseStorage.updateRow applied to the current contents
of the target table: build the SET entries (primary key excluded), execute
the UPDATE, and return result.rows[0] (none when no row matched), paired
with the new table; a driver error is re-thrown. -/
def updateRow (rows : List (Row α)) (pk : String) (pkValue : α)
    (data : List (String × α)) :
    Except String (Option (Row α)) × List (Row α) :=
  match runUpdate rows pk pkValue (colsVals data pk) with
  | Except.error e => (Except.error e, rows)
  | Except.ok (returned, newRows) => (Except.ok returned.head?, newRows)

/-- HTTP status returned by the PUT rows route: 200 with the row when
updateRow produced one, 404 when it produced undefined, 500 when the
execution threw. -/
def putRowStatus : Except String (Option (Row α)) → Nat
  | Except.ok (some _) => 200
  | Except.ok none => 404
  | Except.error _ => 500

/-- Embedding of DatabaseStorage.deleteRow applied to the current contents
of the target table: DELETE FROM t WHERE pk = $1 RETURNING pk removes every
matching row; the method returns result.rows.length > 0, paired with the
new table. -/
def deleteRow (rows : List (Row α)) (pk : String) (pkValue : α) :
    Bool × List (Row α) :=
  let returned := rows.filter (fun r => decide (rowGet r pk = some pkValue))
  (decide (0 < returned.length),
    rows.filter (fun r => decide (¬ rowGet r pk = some pkValue)))

/-- Row of the app_settings table; the value column holds arbitrary JSON,
modelled by the value type α compared structurally. -/
structure AppSetting (α : Type) where
  key : String
  value : α
  updatedAt : Nat
deriving DecidableEq, Repr

/-- Embedding of DatabaseStorage.getSetting: SELECT the rows with the
given key and destructure the first one. -/
def getSetting (st : List (AppSetting α)) (k : String) : Option (AppSetting α) :=
  st.find? (fun s => decide (s.key = k))

/-- Embedding of DatabaseStorage.setSetting: read the existing setting; if
present, UPDATE value and updated_at on the rows with that key RETURNING
the first updated row; otherwise INSERT a fresh row.  Returns the stored
setting paired with the new table. -/
def setSetting (st : List (AppSetting α)) (k : String) (v : α) (now : Nat) :
    Option (AppSetting α) × List (AppSetting α) :=
  match getSetting st k with
  | some _ =>
      let st' := st.map (fun s =>
        if s.key = k then { s with value := v, updatedAt := now } else s)
      ((st'.filter (fun s => decide (s.key = k))).head?, st')
  | none =>
      let newSetting : AppSetting α := { key := k, value := v, updatedAt := now }
      (some newSetting, st ++ [newSetting])

/-- JavaScript whitespace as matched by the regular expression class of
whitespace characters used in query.trim().split: space, tab, and the
newline, carriage-return, vertical-tab and form-feed controls. -/
def isWsChar (c : Char) : Bool :=
  c == ' ' || c == '\t' || c == '\n' || c == '\r' || c == '\x0b' || c == '\x0c'

/-- JavaScript String.prototype.trim over the character list. -/
def jsTrim (l : List Char) : List Char :=
  (((l.dropWhile isWsChar).reverse).dropWhile isWsChar).reverse

mutual

/-- Worker for splitting on runs of whitespace, accumulating the current
token in reverse: on whitespace, emit the token and skip the run. -/
def splitWsGo : List Char → List Char → List (List Char)
  | [], acc => [acc.reverse]
  | c :: cs, acc =>
      if isWsChar c then acc.reverse :: splitWsSkip cs
      else splitWsGo cs (c :: acc)

/-- Worker skipping a whitespace run; at the end of the string this yields
the trailing empty field JavaScript split produces. -/
def splitWsSkip : List Char → List (List Char)
  | [] => [[]]
  | c :: cs => if isWsChar c then splitWsSkip cs else splitWsGo cs [c]

end

/-- JavaScript split on a whitespace-run separator as used by the source:
splitting never yields an empty array, so index 0 is the first field. -/
def splitWs (l : List Char) : List (List Char) := splitWsGo l []

/-- Embedding of the operation label computed by
DatabaseStorage.executeRawQuery for the activity log:
query.trim().split on whitespace runs, element 0, upper-cased. -/
def opLabel (q : String) : String :=
  String.mk (((splitWs (jsTrim q.data)).headD []).map Char.toUpper)

/-- The first whitespace-delimited token of the trimmed SQL text converted
to upper case, as the specification phrases the operation label. -/
def firstTokenUpper (q : String) : String :=
  String.mk (((jsTrim q.data).takeWhile (fun c => !isWsChar c)).map Char.toUpper)

/-- Row of the activity_logs table as written by executeRawQuery; metadata
is the error message recorded on failure (the source stores the object
with an error field holding that message). -/
structure ActivityLog where
  connectionId : Nat
  operation : String
  details : String
  status : String
  metadata : Option String
deriving DecidableEq, Repr

/-- Embedding of DatabaseStorage.createActivityLog: INSERT the entry and
return it; the log table is append-only. -/
def createActivityLog (logs : List ActivityLog) (entry : ActivityLog) :
    ActivityLog × List ActivityLog :=
  (entry, logs ++ [entry])

/-- Embedding of DatabaseStorage.executeRawQuery: run the caller's SQL
(the driver outcome is a parameter), then append an activity-log entry
with status SUCCESS on success, or status ERROR carrying the error message
before the error is re-thrown. -/
def executeRawQuery {ρ : Type} (connectionId : Nat) (query : String)
    (outcome : Except String ρ) (logs : List ActivityLog) :
    Except String ρ × List ActivityLog :=
  match outcome with
  | Except.ok r =>
      (Except.ok r,
        (createActivityLog logs
          { connectionId := connectionId, operation := opLabel query,
            details := query, status := "SUCCESS", metadata := none }).2)
  | Except.error e =>
      (Except.error e,
        (createActivityLog logs
          { connectionId := connectionId, operation := opLabel query,
            details := query, status := "ERROR", metadata := some e }).2)

/-! Helper lemmas. -/

/-- The head of a filtered list is the first element satisfying the
predicate. -/
theorem head?_filter {β : Type} (p : β → Bool) (l : List β) :
    (l.filter p).head? = l.find? p := by
  induction l with
  | nil => rfl
  | cons a l ih =>
      by_cases h : p a
      · rw [List.filter_cons_of_pos h, List.find?_cons_of_pos l h]
        rfl
      · rw [List.filter_cons_of_neg h, List.find?_cons_of_neg l h]
        exact ih

/-- In a list whose keys are pairwise distinct, filtering on the key of a
member isolates exactly that member. -/
theorem filter_key_eq_singleton {β : Type} (g : β → Nat) (l : List β)
    (hnd : (l.map g).Nodup) (b : β) (hb : b ∈ l) :
    l.filter (fun x => decide (g x = g b)) = [b] := by
  induction l with
  | nil => simp at hb
  | cons a l ih =>
      rw [List.map_cons, List.nodup_cons] at hnd
      rcases List.mem_cons.mp hb with rfl | hb'
      · rw [List.filter_cons_of_pos (by simp)]
        have : l.filter (fun x => decide (g x = g b)) = [] := by
          rw [List.filter_eq_nil_iff]
          intro x hx
          simp only [decide_eq_true_eq]
          intro hgx
          exact hnd.1 (hgx ▸ List.mem_map_of_mem g hx)
        rw [this]
      · have hne : ¬ g a = g b := by
          intro h
          exact hnd.1 (h ▸ List.mem_map_of_mem g hb')
        rw [List.filter_cons_of_neg (by simp [hne])]
        exact ih hnd.2 hb'

/-- The combined effect on one registry row of the two UPDATE statements
inside activateConnection. -/
def activateStep (id now : Nat) (c : DbConnection) : DbConnection :=
  if c.id = id then { c with isActive := true, updatedAt := now }
  else { c with isActive := false }

theorem activateConnection_state (st : List DbConnection) (id now : Nat) :
    (activateConnection st id now).2 = st.map (activateStep id now) := by
  simp only [activateConnection, List.map_map]
  apply List.map_congr_left
  intro a _
  obtain ⟨aid, aname, aact, aupd⟩ := a
  cases aact <;> by_cases h : aid = id <;> simp [activateStep, h]

theorem activateConnection_ret (st : List DbConnection) (id now : Nat) :
    (activateConnection st id now).1 =
      ((activateConnection st id now).2.filter (fun c => decide (c.id = id))).head? := rfl

theorem activateStep_id (id now : Nat) (c : DbConnection) :
    (activateStep id now c).id = c.id := by
  obtain ⟨aid, aname, aact, aupd⟩ := c
  by_cases h : aid = id <;> simp [activateStep, h]

theorem activateStep_isActive (id now : Nat) (c : DbConnection) :
    (activateStep id now c).isActive = decide (c.id = id) := by
  obtain ⟨aid, aname, aact, aupd⟩ := c
  by_cases h : aid = id <;> simp [activateStep, h]

/-- C1: for every connection id present in the registry (connection ids are
pairwise distinct, being the table's primary key), activateConnection(id)
followed by getActiveConnection() returns exactly the connection with that
id (now flagged active with a fresh updatedAt), and after the activation no
other stored connection has isActive = true. -/
theorem activate_then_getActive (st : List DbConnection) (id now : Nat)
    (hnd : (st.map (fun c => c.id)).Nodup) (c0 : DbConnection)
    (hc0 : c0 ∈ st) (hid : c0.id = id) :
    (activateConnection st id now).1 =
      some { c0 with isActive := true, updatedAt := now } ∧
    getActiveConnection (activateConnection st id now).2 =
      some { c0 with isActive := true, updatedAt := now } ∧
    ∀ c ∈ (activateConnection st id now).2, c.id ≠ id → c.isActive = false := by
  have hstate := activateConnection_state st id now
  have hfilter :
      st.filter (fun c => decide (c.id = id)) = [c0] := by
    have := filter_key_eq_singleton (fun c => c.id) st hnd c0 hc0
    simpa [hid] using this
  have hmapfilter :
      (st.map (activateStep id now)).filter (fun c => decide (c.id = id)) =
        [activateStep id now c0] := by
    rw [List.filter_map]
    have hcongr :
        st.filter ((fun c => decide (c.id = id)) ∘ activateStep id now) =
          st.filter (fun c => decide (c.id = id)) := by
      apply List.filter_congr
      intro a _
      simp [Function.comp, activateStep_id]
    rw [hcongr, hfilter, List.map_cons, List.map_nil]
  have hc0step : activateStep id now c0 =
      { c0 with isActive := true, updatedAt := now } := by
    obtain ⟨aid, aname, aact, aupd⟩ := c0
    simp only at hid
    simp [activateStep, hid]
  refine ⟨?_, ?_, ?_⟩
  · rw [activateConnection_ret, hstate, hmapfilter, hc0step]
    rfl
  · rw [hstate]
    unfold getActiveConnection
    have hactfilter :
        (st.map (activateStep id now)).filter (fun c => c.isActive) =
          [activateStep id now c0] := by
      rw [List.filter_map]
      have hcongr :
          st.filter ((fun c => c.isActive) ∘ activateStep id now) =
            st.filter (fun c => decide (c.id = id)) := by
        apply List.filter_congr
        intro a _
        simp [Function.comp, activateStep_isActive]
      rw [hcongr, hfilter, List.map_cons, List.map_nil]
    rw [hactfilter, hc0step]
    rfl
  · intro c hc hcid
    rw [hstate] at hc
    obtain ⟨a, _, rfl⟩ := List.mem_map.mp hc
    rw [activateStep_isActive]
    rw [activateStep_id] at hcid
    simp [hcid]

theorem activate_then_getActive_witness :
    (([{ id := 1, name := "dev", isActive := true, updatedAt := 0 },
       { id := 2, name := "prod", isActive := false, updatedAt := 0 }] :
        List DbConnection).map (fun c => c.id)).Nodup ∧
    getActiveConnection (activateConnection
        [{ id := 1, name := "dev", isActive := true, updatedAt := 0 },
         { id := 2, name := "prod", isActive := false, updatedAt := 0 }] 2 7).2 =
      some { id := 2, name := "prod", isActive := true, updatedAt := 7 } :=
  ⟨by decide,
    (activate_then_getActive
      [{ id := 1, name := "dev", isActive := true, updatedAt := 0 },
       { id := 2, name := "prod", isActive := false, updatedAt := 0 }] 2 7
      (by decide)
      { id := 2, name := "prod", isActive := false, updatedAt := 0 }
      (by decide) rfl).2.1⟩

/-- C9: activateConnection with an id matching no stored connection still
runs the first UPDATE, so every previously active connection is set to
isActive = false, the method returns undefined (the route answers 404), and
afterwards getActiveConnection reports no active connection. -/
theorem activateConnection_missing_id (st : List DbConnection) (id now : Nat)
    (h : ∀ c ∈ st, c.id ≠ id) :
    (activateConnection st id now).1 = none ∧
    (activateConnection st id now).2 =
      st.map (fun c => if c.isActive then { c with isActive := false } else c) ∧
    getActiveConnection (activateConnection st id now).2 = none ∧
    activateStatus (activateConnection st id now).1 = 404 := by
  have hstate := activateConnection_state st id now
  have hstep : ∀ c ∈ st, activateStep id now c =
      if c.isActive then { c with isActive := false } else c := by
    intro c hc
    obtain ⟨aid, aname, aact, aupd⟩ := c
    have : aid ≠ id := h _ hc
    cases aact <;> simp [activateStep, this]
  have hinactive : ∀ c ∈ (activateConnection st id now).2, c.isActive = false := by
    intro c hc
    rw [hstate] at hc
    obtain ⟨a, ha, rfl⟩ := List.mem_map.mp hc
    rw [activateStep_isActive]
    simp [h a ha]
  have hret : (activateConnection st id now).1 = none := by
    rw [activateConnection_ret]
    have : (activateConnection st id now).2.filter (fun c => decide (c.id = id)) = [] := by
      rw [List.filter_eq_nil_iff]
      intro c hc
      rw [hstate] at hc
      obtain ⟨a, ha, rfl⟩ := List.mem_map.mp hc
      simp [activateStep_id, h a ha]
    rw [this]
    rfl
  refine ⟨hret, ?_, ?_, ?_⟩
  · rw [hstate]
    exact List.map_congr_left hstep
  · unfold getActiveConnection
    have : (activateConnection st id now).2.filter (fun c => c.isActive) = [] := by
      rw [List.filter_eq_nil_iff]
      intro c hc
      simp [hinactive c hc]
    rw [this]
    rfl
  · rw [hret]
    rfl

theorem activateConnection_missing_id_witness :
    (∀ c ∈ ([{ id := 1, name := "dev", isActive := true, updatedAt := 0 },
             { id := 2, name := "prod", isActive := false, updatedAt := 0 }] :
        List DbConnection), c.id ≠ 5) ∧
    (activateConnection
        [{ id := 1, name := "dev", isActive := true, updatedAt := 0 },
         { id := 2, name := "prod", isActive := false, updatedAt := 0 }] 5 7).1 = none ∧
    getActiveConnection (activateConnection
        [{ id := 1, name := "dev", isActive := true, updatedAt := 0 },
         { id := 2, name := "prod", isActive := false, updatedAt := 0 }] 5 7).2 = none :=
  ⟨by decide,
    (activateConnection_missing_id _ 5 7 (by decide)).1,
    (activateConnection_missing_id
      [{ id := 1, name := "dev", isActive := true, updatedAt := 0 },
       { id := 2, name := "prod", isActive := false, updatedAt := 0 }] 5 7
      (by decide)).2.2.1⟩

/-- Agreement of the natural-number encoding of Math.ceil(t / p) with the
ceiling of the exact rational quotient, for positive p. -/
theorem ceil_cast_div (t p : Nat) (hp : 0 < p) :
    (t + p - 1) / p = Nat.ceil ((t : ℚ) / (p : ℚ)) := by
  have hp' : (0 : ℚ) < (p : ℚ) := by exact_mod_cast hp
  apply le_antisymm
  · have h1 : (t : ℚ) / p ≤ (Nat.ceil ((t : ℚ) / p) : ℚ) := Nat.le_ceil _
    have h2 : (t : ℚ) ≤ (Nat.ceil ((t : ℚ) / p) : ℚ) * p := (div_le_iff₀ hp').mp h1
    have h3 : t ≤ Nat.ceil ((t : ℚ) / p) * p := by exact_mod_cast h2
    have h4 : t + p - 1 < Nat.ceil ((t : ℚ) / p) * p + p :=
      lt_of_lt_of_le (by omega) (Nat.add_le_add_right h3 p)
    have h5 : t + p - 1 < (Nat.ceil ((t : ℚ) / p) + 1) * p := by
      rw [Nat.add_mul, one_mul]
      exact h4
    exact Nat.le_of_lt_succ ((Nat.div_lt_iff_lt_mul hp).mpr h5)
  · rw [Nat.ceil_le, div_le_iff₀ hp']
    have h6 : t + p - 1 < (t + p - 1) / p * p + p := Nat.lt_div_mul_add hp
    have h5 : t ≤ (t + p - 1) / p * p := by
      generalize (t + p - 1) / p * p = q at h6 ⊢
      omega
    exact_mod_cast h5

/-- C2: fetchTableData returns at most pageSize rows, a total equal to the
table's row count at call time, the row query offset by
(page - 1) * pageSize, and a pagination descriptor whose totalPages is the
ceiling of total / pageSize (page and pageSize positive, as the route's
defaults and query parameters supply). -/
theorem fetchTableData_spec {ρ : Type} (rows : List ρ) (page pageSize : Nat)
    (hpage : 0 < page) (hsize : 0 < pageSize) :
    (fetchTableData rows page pageSize).data.length ≤ pageSize ∧
    (fetchTableData rows page pageSize).pagination.total = rows.length ∧
    (fetchTableData rows page pageSize).data =
      (rows.drop ((page - 1) * pageSize)).take pageSize ∧
    (fetchTableData rows page pageSize).pagination.page = page ∧
    (fetchTableData rows page pageSize).pagination.pageSize = pageSize ∧
    (fetchTableData rows page pageSize).pagination.totalPages =
      Nat.ceil ((rows.length : ℚ) / (pageSize : ℚ)) := by
  refine ⟨?_, rfl, rfl, rfl, rfl, ?_⟩
  · exact List.length_take_le pageSize _
  · exact ceil_cast_div rows.length pageSize hsize

theorem fetchTableData_spec_witness :
    (0 < 1 ∧ 0 < 2) ∧
    (fetchTableData ([10, 20, 30] : List Nat) 1 2).data.length ≤ 2 ∧
    (fetchTableData ([10, 20, 30] : List Nat) 1 2).pagination.totalPages =
      Nat.ceil ((([10, 20, 30] : List Nat).length : ℚ) / ((2 : Nat) : ℚ)) :=
  ⟨⟨by decide, by decide⟩,
    (fetchTableData_spec [10, 20, 30] 1 2 (by decide) (by decide)).1,
    (fetchTableData_spec [10, 20, 30] 1 2 (by decide) (by decide)).2.2.2.2.2⟩

/-- C3: insertRow builds INSERT INTO t (cols) VALUES (placeholders)
RETURNING * where the column list and the value list come directly from the
keys and values of the record, any table name and any column names are
interpolated into the text as given (no validation restricts them), and
only the values are bound as the driver parameters, one placeholder per
value. -/
theorem insertRow_query_shape (tableName : String) (data : List (String × α)) :
    (insertRowQuery tableName data).text =
      "INSERT INTO " ++ tableName ++ " (" ++
        String.intercalate ", " (data.map Prod.fst) ++ ") VALUES (" ++
        String.intercalate ", "
          ((List.range data.length).map (fun i => "$" ++ toString (i + 1))) ++
        ") RETURNING *" ∧
    (insertRowQuery tableName data).params = data.map Prod.snd := by
  constructor
  · simp [insertRowQuery, placeholders]
  · rfl

/-! Lemmas on rows and SET-assignment application. -/

theorem rowGet_setAssoc_self (r : Row α) (c : String) (v : α) :
    rowGet (setAssoc r c v) c = some v := by
  induction r with
  | nil => simp [setAssoc, rowGet]
  | cons p r ih =>
      obtain ⟨c', v'⟩ := p
      by_cases h : c' = c
      · simp [setAssoc, h, rowGet]
      · simp only [setAssoc, h, if_false]
        simp only [rowGet] at ih ⊢
        rw [List.find?_cons_of_neg _ (by simp [h])]
        exact ih

theorem rowGet_setAssoc_ne (r : Row α) (c c' : String) (h : c' ≠ c) (v : α) :
    rowGet (setAssoc r c v) c' = rowGet r c' := by
  have h' : ¬ c = c' := fun hh => h hh.symm
  induction r with
  | nil => simp [setAssoc, rowGet, h']
  | cons p r ih =>
      obtain ⟨a, b⟩ := p
      by_cases ha : a = c
      · rw [show setAssoc ((a, b) :: r) c v = (c, v) :: r from by
          simp [setAssoc, ha]]
        simp only [rowGet]
        rw [List.find?_cons_of_neg _ (by simp [h']),
          List.find?_cons_of_neg _ (by simp [ha, h'])]
      · rw [show setAssoc ((a, b) :: r) c v = (a, b) :: setAssoc r c v from by
          simp [setAssoc, ha]]
        by_cases ha' : a = c'
        · simp only [rowGet]
          rw [List.find?_cons_of_pos _ (by simp [ha']),
            List.find?_cons_of_pos _ (by simp [ha'])]
        · simp only [rowGet] at ih ⊢
          rw [List.find?_cons_of_neg _ (by simp [ha']),
            List.find?_cons_of_neg _ (by simp [ha'])]
          exact ih

theorem applySets_cons (r : Row α) (p : String × α) (sets : List (String × α)) :
    applySets r (p :: sets) = applySets (setAssoc r p.1 p.2) sets := rfl

theorem rowGet_applySets_of_not_mem (r : Row α) (sets : List (String × α))
    (c : String) (h : c ∉ sets.map Prod.fst) :
    rowGet (applySets r sets) c = rowGet r c := by
  induction sets generalizing r with
  | nil => rfl
  | cons p s ih =>
      obtain ⟨c0, v0⟩ := p
      simp only [List.map_cons, List.mem_cons, not_or] at h
      rw [applySets_cons]
      rw [ih _ h.2]
      exact rowGet_setAssoc_ne r c0 c h.1 v0

theorem rowGet_applySets_of_mem (r : Row α) (sets : List (String × α))
    (hnd : (sets.map Prod.fst).Nodup) (c : String) (v : α) (h : (c, v) ∈ sets) :
    rowGet (applySets r sets) c = some v := by
  induction sets generalizing r with
  | nil => simp at h
  | cons p s ih =>
      obtain ⟨c0, v0⟩ := p
      rw [List.map_cons, List.nodup_cons] at hnd
      rw [applySets_cons]
      rcases List.mem_cons.mp h with heq | hmem
      · obtain ⟨rfl, rfl⟩ := Prod.mk.injEq .. ▸ heq
        rw [rowGet_applySets_of_not_mem _ _ _ hnd.1]
        exact rowGet_setAssoc_self r c v
      · exact ih _ hnd.2 hmem

theorem pk_not_mem_colsVals (data : List (String × α)) (pk : String) :
    pk ∉ (colsVals data pk).map Prod.fst := by
  intro h
  obtain ⟨p, hp, hfst⟩ := List.mem_map.mp h
  have := (List.mem_filter.mp hp).2
  simp only [decide_eq_true_eq] at this
  exact this hfst

theorem colsVals_keys_nodup (data : List (String × α)) (pk : String)
    (hnd : (data.map Prod.fst).Nodup) :
    ((colsVals data pk).map Prod.fst).Nodup :=
  List.Nodup.sublist (List.Sublist.map Prod.fst (List.filter_sublist data)) hnd

/-- C4: updateRow excludes the primary-key column from the SET list; when no
row of the table has pk = v it yields undefined so the HTTP layer answers
404, and when rows match, the returned row is the first matching row with
the supplied fields merged in and the primary key unchanged (the record has
distinct keys and at least one non-key field, as a JS object sent by the
edit form does). -/
theorem updateRow_spec (rows : List (Row α)) (pk : String) (pkValue : α)
    (data : List (String × α)) (hne : colsVals data pk ≠ [])
    (hnd : (data.map Prod.fst).Nodup) :
    pk ∉ ((colsVals data pk).map Prod.fst) ∧
    (rows.find? (fun r => decide (rowGet r pk = some pkValue)) = none →
      (updateRow rows pk pkValue data).1 = Except.ok none ∧
      putRowStatus (updateRow rows pk pkValue data).1 = 404) ∧
    (∀ r₀, rows.find? (fun r => decide (rowGet r pk = some pkValue)) = some r₀ →
      (updateRow rows pk pkValue data).1 =
        Except.ok (some (applySets r₀ (colsVals data pk))) ∧
      rowGet (applySets r₀ (colsVals data pk)) pk = some pkValue ∧
      (∀ c v, (c, v) ∈ colsVals data pk →
        rowGet (applySets r₀ (colsVals data pk)) c = some v) ∧
      (∀ c, c ∉ ((colsVals data pk).map Prod.fst) →
        rowGet (applySets r₀ (colsVals data pk)) c = rowGet r₀ c) ∧
      putRowStatus (updateRow rows pk pkValue data).1 = 200) := by
  have hE : (colsVals data pk).isEmpty = false := by
    cases h : colsVals data pk with
    | nil => exact absurd h hne
    | cons a l => rfl
  have hrun : (updateRow rows pk pkValue data).1 =
      Except.ok (((rows.filter (fun r => decide (rowGet r pk = some pkValue))).map
        (fun r => applySets r (colsVals data pk))).head?) := by
    simp [updateRow, runUpdate, hE]
  rw [List.head?_map, head?_filter] at hrun
  refine ⟨pk_not_mem_colsVals data pk, ?_, ?_⟩
  · intro hnone
    rw [hnone] at hrun
    exact ⟨hrun, by rw [hrun]; rfl⟩
  · intro r₀ hfind
    rw [hfind] at hrun
    have hmatch : rowGet r₀ pk = some pkValue := by
      have := List.find?_some hfind
      simpa using this
    refine ⟨hrun, ?_, ?_, ?_, by rw [hrun]; rfl⟩
    · rw [rowGet_applySets_of_not_mem _ _ _ (pk_not_mem_colsVals data pk)]
      exact hmatch
    · intro c v hcv
      exact rowGet_applySets_of_mem r₀ _ (colsVals_keys_nodup data pk hnd) c v hcv
    · intro c hc
      exact rowGet_applySets_of_not_mem r₀ _ c hc

theorem updateRow_spec_witness :
    (colsVals [("customer", (5 : Nat))] "id" ≠ [] ∧
      (([("customer", (5 : Nat))] : List (String × Nat)).map Prod.fst).Nodup) ∧
    "id" ∉ ((colsVals [("customer", (5 : Nat))] "id").map Prod.fst) :=
  ⟨⟨by decide, by decide⟩,
    (updateRow_spec ([[("id", (7 : Nat)), ("customer", 1)]] : List (Row Nat))
      "id" 7 [("customer", 5)] (by decide) (by decide)).1⟩

/-- C5: deleteRow returns true exactly when a row with pk = v existed (all
such rows being removed), and a second call with the same value on the
resulting table returns false as an idempotent no-op rather than raising an
error. -/
theorem deleteRow_idempotent (rows : List (Row α)) (pk : String) (pkValue : α) :
    ((deleteRow rows pk pkValue).1 = true ↔
      ∃ r ∈ rows, rowGet r pk = some pkValue) ∧
    (deleteRow (deleteRow rows pk pkValue).2 pk pkValue).1 = false := by
  constructor
  · simp only [deleteRow, decide_eq_true_eq]
    rw [List.length_pos_iff_exists_mem]
    constructor
    · rintro ⟨r, hr⟩
      have := List.mem_filter.mp hr
      exact ⟨r, this.1, by simpa using this.2⟩
    · rintro ⟨r, hr, hget⟩
      exact ⟨r, List.mem_filter.mpr ⟨hr, by simpa using hget⟩⟩
  · simp only [deleteRow, List.filter_filter, decide_eq_true_eq]
    have : (rows.filter (fun r =>
        decide (rowGet r pk = some pkValue) &&
          decide (¬ rowGet r pk = some pkValue))) = [] := by
      rw [List.filter_eq_nil_iff]
      intro r _
      by_cases h : rowGet r pk = some pkValue <;> simp [h]
    rw [this]
    rfl

/-- C10: when the record's only key is the primary-key column (or the
record is empty), the generated SQL has an empty SET clause, namely
UPDATE t SET  WHERE pk = $1 RETURNING *, so executing the statement always
raises an execution error instead of returning the row unchanged. -/
theorem updateRow_empty_set (tableName pk : String) (pkValue : α)
    (data : List (String × α)) (rows : List (Row α))
    (hall : ∀ p ∈ data, p.1 = pk) :
    (updateRowQuery tableName pk pkValue data).text =
      "UPDATE " ++ tableName ++ " SET  WHERE " ++ pk ++ " = $1 RETURNING *" ∧
    ∃ e, (updateRow rows pk pkValue data).1 = Except.error e ∧
      (updateRow rows pk pkValue data).2 = rows := by
  have hcv : colsVals data pk = [] := by
    rw [colsVals, List.filter_eq_nil_iff]
    intro p hp
    simp [hall p hp]
  constructor
  · simp only [updateRowQuery, hcv, List.map_nil, List.length_nil]
    have em : ∀ f : Nat → String → String,
        String.intercalate ", " (List.mapIdx f []) = "" := fun f => rfl
    rw [em]
    have e0 : toString (0 + 1 : Nat) = "1" := rfl
    rw [e0]
    simp only [String.append_assoc, String.empty_append]
    rw [← String.append_assoc " SET " " WHERE "]
    have e1 : (" SET " ++ " WHERE " : String) = " SET  WHERE " := rfl
    rw [e1]
    rw [← String.append_assoc " = $" "1"]
    have e2 : (" = $" ++ "1" : String) = " = $1" := rfl
    rw [e2]
    have e3 : (" = $1" ++ " RETURNING *" : String) = " = $1 RETURNING *" := rfl
    rw [e3]
  · refine ⟨"syntax error at or near WHERE", ?_, ?_⟩ <;>
      simp [updateRow, runUpdate, hcv]

theorem updateRow_empty_set_witness :
    (∀ p ∈ ([("id", (3 : Nat))] : List (String × Nat)), p.1 = "id") ∧
    (updateRowQuery "users" "id" (3 : Nat) [("id", 3)]).text =
      "UPDATE " ++ "users" ++ " SET  WHERE " ++ "id" ++ " = $1 RETURNING *" :=
  ⟨by decide,
    (updateRow_empty_set "users" "id" 3 [("id", 3)]
      ([[("id", (3 : Nat))]] : List (Row Nat)) (by decide)).1⟩

/-! Settings store. -/

theorem getSetting_map_set (st : List (AppSetting α)) (k : String) (v : α)
    (now : Nat) :
    getSetting (st.map (fun s =>
        if s.key = k then { s with value := v, updatedAt := now } else s)) k =
      (getSetting st k).map (fun s => { s with value := v, updatedAt := now }) := by
  induction st with
  | nil => rfl
  | cons a st ih =>
      simp only [List.map_cons]
      by_cases h : a.key = k
      · rw [if_pos h]
        unfold getSetting
        rw [List.find?_cons_of_pos _ (by simp [h]),
          List.find?_cons_of_pos _ (by simp [h])]
        rfl
      · rw [if_neg h]
        unfold getSetting
        rw [List.find?_cons_of_neg _ (by simp [h]),
          List.find?_cons_of_neg _ (by simp [h])]
        exact ih

/-- C6: setSetting(key, value) followed by getSetting(key) returns a
setting whose value is structurally equal to the value that was set, and
setSetting is an upsert: when the key already exists the row count is
unchanged and the value and timestamp are updated in place, otherwise a
fresh row is inserted. -/
theorem setSetting_roundtrip (st : List (AppSetting α)) (k : String) (v : α)
    (now : Nat) :
    (getSetting (setSetting st k v now).2 k).map (fun s => s.value) = some v ∧
    ((getSetting st k).isSome →
      (setSetting st k v now).2.length = st.length ∧
      (getSetting (setSetting st k v now).2 k).map (fun s => s.updatedAt) =
        some now) ∧
    (getSetting st k = none →
      (setSetting st k v now).2 =
        st ++ [{ key := k, value := v, updatedAt := now }]) := by
  cases hg : getSetting st k with
  | none =>
      have h2 : (setSetting st k v now).2 =
          st ++ [{ key := k, value := v, updatedAt := now }] := by
        simp [setSetting, hg]
      refine ⟨?_, ?_, fun _ => h2⟩
      · rw [h2]
        unfold getSetting
        rw [List.find?_append]
        unfold getSetting at hg
        rw [hg]
        simp
      · intro hs
        simp at hs
  | some s =>
      have h2 : (setSetting st k v now).2 = st.map (fun s =>
          if s.key = k then { s with value := v, updatedAt := now } else s) := by
        simp [setSetting, hg]
      have h3 : getSetting (setSetting st k v now).2 k =
          some { s with value := v, updatedAt := now } := by
        rw [h2, getSetting_map_set, hg]
        rfl
      refine ⟨by rw [h3]; rfl, fun _ => ⟨by rw [h2]; simp, by rw [h3]; rfl⟩, ?_⟩
      intro h
      simp at h

theorem setSetting_roundtrip_witness :
    (getSetting (setSetting ([] : List (AppSetting Nat)) "theme" 3 5).2
        "theme").map (fun s => s.value) = some 3 :=
  (setSetting_roundtrip [] "theme" 3 5).1

/-! Activity logging around raw SQL execution. -/

/-- C7: for every raw SQL execution that fails, executeRawQuery records an
activity-log entry with status ERROR carrying the error message in its
metadata before the error is re-thrown to the caller; on success it records
an entry with status SUCCESS. -/
theorem executeRawQuery_logs {ρ : Type} (cid : Nat) (q : String)
    (outcome : Except String ρ) (logs : List ActivityLog) :
    (∀ e, outcome = Except.error e →
      (executeRawQuery cid q outcome logs).1 = Except.error e ∧
      (executeRawQuery cid q outcome logs).2 =
        logs ++ [{ connectionId := cid, operation := opLabel q, details := q,
                   status := "ERROR", metadata := some e }]) ∧
    (∀ r, outcome = Except.ok r →
      (executeRawQuery cid q outcome logs).1 = Except.ok r ∧
      (executeRawQuery cid q outcome logs).2 =
        logs ++ [{ connectionId := cid, operation := opLabel q, details := q,
                   status := "SUCCESS", metadata := none }]) := by
  constructor
  · rintro e rfl
    exact ⟨rfl, rfl⟩
  · rintro r rfl
    exact ⟨rfl, rfl⟩

theorem executeRawQuery_logs_witness :
    (executeRawQuery 1 "DROP TABLE users"
        (Except.error "permission denied" : Except String Nat) []).1 =
      Except.error "permission denied" ∧
    (executeRawQuery 1 "DROP TABLE users"
        (Except.error "permission denied" : Except String Nat) []).2 =
      [] ++ [{ connectionId := 1, operation := opLabel "DROP TABLE users",
               details := "DROP TABLE users", status := "ERROR",
               metadata := some "permission denied" }] :=
  (executeRawQuery_logs 1 "DROP TABLE users"
    (Except.error "permission denied" : Except String Nat) []).1
    "permission denied" rfl

theorem headD_splitWsGo (l : List Char) : ∀ acc,
    (splitWsGo l acc).headD [] =
      acc.reverse ++ l.takeWhile (fun c => !isWsChar c) := by
  induction l with
  | nil =>
      intro acc
      simp [splitWsGo]
  | cons c cs ih =>
      intro acc
      by_cases h : isWsChar c
      · rw [show splitWsGo (c :: cs) acc = acc.reverse :: splitWsSkip cs from by
          simp [splitWsGo, h]]
        simp [List.takeWhile_cons, h]
      · rw [show splitWsGo (c :: cs) acc = splitWsGo cs (c :: acc) from by
          simp [splitWsGo, h]]
        rw [ih]
        simp [List.takeWhile_cons, h]

/-- C8: the operation label executeRawQuery writes to the activity log is
the first whitespace-delimited token of the trimmed SQL text converted to
upper case, whatever the outcome of the execution. -/
theorem executeRawQuery_operation_label {ρ : Type} (cid : Nat) (q : String)
    (outcome : Except String ρ) (logs : List ActivityLog) :
    ∃ entry, (executeRawQuery cid q outcome logs).2 = logs ++ [entry] ∧
      entry.operation = firstTokenUpper q := by
  have hop : opLabel q = firstTokenUpper q := by
    unfold opLabel firstTokenUpper splitWs
    rw [headD_splitWsGo]
    rfl
  cases outcome with
  | ok r => exact ⟨_, rfl, hop⟩
  | error e => exact ⟨_, rfl, hop⟩

end PgDbManager
